import Mathlib

/-!
Shallow embedding of the `AdExFHEBiddingFHE` Solidity contract
(sealed-bid batch auction with asynchronous oracle decryption).

Modelling conventions:
* Addresses, timestamps, batch ids and request ids are `Nat`.
* An `euint32` ciphertext is modelled as a handle (the `bytes32` returned
  by `FHE.toBytes32`) together with the underlying plaintext value that the
  homomorphic comparison `FHE.ge(..).toBool()` semantically compares.
  `isInitialized` holds exactly when the handle is nonzero, matching the
  FHE library's uninitialized-handle convention.
* `keccak256(abi.encode(cts, address(this)))` is modelled as an injective
  constructor `B32.keccak cts addr`; `B32.zero` is the default `bytes32`
  stored in an untouched mapping slot (keccak output is assumed to never
  collide with the zero word).
* Solidity mappings are total functions with the type's default value.
* Each external function is a Lean function from the pre-state and the
  call's environment (msg.sender, block.timestamp, oracle-assigned request
  id, signature-check verdict) to `Except Err ContractState`; a `revert`
  is `.error`.  The EVM discards every storage write of a reverted call,
  which `step` encodes by returning the pre-state on `.error`.
* A Solidity array read out of bounds aborts with panic 0x32; this abort is
  the constructor `Err.PanicOutOfBounds`, which is not one of the
  contract's declared (named) custom errors.
-/

/-- Model of `euint32`: oracle handle plus the plaintext the FHE semantics
compares. -/
structure Ct where
  handle : Nat
  value : Nat
deriving DecidableEq

/-- `FHE.isInitialized`: the handle is nonzero. -/
def Ct.isInitialized (c : Ct) : Bool := c.handle != 0

/-- `FHE.ge(a, b).toBool()`: homomorphic greater-or-equal on the underlying
values. -/
def ctGe (a b : Ct) : Bool := decide (b.value ≤ a.value)

/-- `struct Bid` from the contract. -/
structure Bid where
  encryptedBidAmount : Ct
  encryptedTargetingScore : Ct
  bidder : Nat
deriving DecidableEq

/-- A `bytes32` word: either the zero default or a keccak commitment over a
ciphertext-handle list and a contract address. -/
inductive B32 where
  | zero
  | keccak (cts : List Nat) (addr : Nat)
deriving DecidableEq

/-- `_hashCiphertexts`: `keccak256(abi.encode(cts, address(this)))`. -/
def hashCiphertexts (cts : List Nat) (self : Nat) : B32 := B32.keccak cts self

/-- `struct DecryptionContext` from the contract. -/
structure DecryptionContext where
  batchId : Nat
  stateHash : B32
  processed : Bool
deriving DecidableEq

/-- The mapping default for `decryptionContexts`. -/
def defaultContext : DecryptionContext := ⟨0, B32.zero, false⟩

/-- The contract's declared custom errors, plus the Solidity array
out-of-bounds panic (0x32), which is an abort but not a named error. -/
inductive Err where
  | NotOwner
  | NotProvider
  | Paused
  | CooldownActive
  | InvalidBatch
  | InvalidState
  | ReplayDetected
  | InvalidProof
  | NotInitialized
  | PanicOutOfBounds
deriving DecidableEq

/-- The contract's declared custom errors; the panic abort is not one. -/
def isNamedError : Err → Bool
  | .PanicOutOfBounds => false
  | _ => true

/-- Pointwise update of a Solidity mapping. -/
def upd {α : Type} (f : Nat → α) (k : Nat) (v : α) : Nat → α :=
  fun x => if x = k then v else f x

/-- Full storage of `AdExFHEBiddingFHE`, plus `self` for `address(this)`. -/
structure ContractState where
  self : Nat
  owner : Nat
  providers : Nat → Bool
  paused : Bool
  cooldownSeconds : Nat
  lastSubmissionTime : Nat → Nat
  lastDecryptionRequestTime : Nat → Nat
  batchBids : Nat → List Bid
  batchActive : Nat → Bool
  batchClosed : Nat → Bool
  decryptionContexts : Nat → DecryptionContext

/-- `transferOwnership(newOwner)`: `onlyOwner`, then reassign. -/
def transferOwnership (s : ContractState) (sender newOwner : Nat) :
    Except Err ContractState :=
  if sender ≠ s.owner then .error .NotOwner
  else .ok { s with owner := newOwner }

/-- `addProvider(provider)`: `onlyOwner`, then set the flag. -/
def addProvider (s : ContractState) (sender provider : Nat) :
    Except Err ContractState :=
  if sender ≠ s.owner then .error .NotOwner
  else .ok { s with providers := upd s.providers provider true }

/-- `removeProvider(provider)`: `onlyOwner`, then clear the flag. -/
def removeProvider (s : ContractState) (sender provider : Nat) :
    Except Err ContractState :=
  if sender ≠ s.owner then .error .NotOwner
  else .ok { s with providers := upd s.providers provider false }

/-- `setPaused(_paused)`: `onlyOwner`, then set. -/
def setPaused (s : ContractState) (sender : Nat) (p : Bool) :
    Except Err ContractState :=
  if sender ≠ s.owner then .error .NotOwner
  else .ok { s with paused := p }

/-- `setCooldownSeconds(_cooldownSeconds)`: `onlyOwner`, then set. -/
def setCooldownSeconds (s : ContractState) (sender n : Nat) :
    Except Err ContractState :=
  if sender ≠ s.owner then .error .NotOwner
  else .ok { s with cooldownSeconds := n }

/-- `openBatch(batchId)`: modifiers `onlyProvider`, `whenNotPaused` in that
order, then the create-once check. -/
def openBatch (s : ContractState) (sender batchId : Nat) :
    Except Err ContractState :=
  if ! s.providers sender then .error .NotProvider
  else if s.paused then .error .Paused
  else if s.batchActive batchId || s.batchClosed batchId then .error .InvalidBatch
  else .ok { s with batchActive := upd s.batchActive batchId true }

/-- `closeBatch(batchId)`: modifiers `onlyProvider`, `whenNotPaused`, then
the active check; clears `batchActive` and sets `batchClosed`. -/
def closeBatch (s : ContractState) (sender batchId : Nat) :
    Except Err ContractState :=
  if ! s.providers sender then .error .NotProvider
  else if s.paused then .error .Paused
  else if ! s.batchActive batchId then .error .InvalidBatch
  else .ok { s with
    batchActive := upd s.batchActive batchId false,
    batchClosed := upd s.batchClosed batchId true }

/-- `submitBid(batchId, encryptedBidAmount, encryptedTargetingScore)`:
modifiers `whenNotPaused`, `submissionRateLimited` (which writes the
caller's timestamp before the body runs), then the body's batch-active and
initialization checks, then the push. -/
def submitBid (s : ContractState) (sender ts batchId : Nat)
    (encBid encScore : Ct) : Except Err ContractState :=
  if s.paused then .error .Paused
  else if ts < s.lastSubmissionTime sender + s.cooldownSeconds then
    .error .CooldownActive
  else
    let s1 := { s with lastSubmissionTime := upd s.lastSubmissionTime sender ts }
    if ! s1.batchActive batchId then .error .InvalidBatch
    else if ! encBid.isInitialized then .error .NotInitialized
    else if ! encScore.isInitialized then .error .NotInitialized
    else .ok { s1 with
      batchBids := upd s1.batchBids batchId
        (s1.batchBids batchId ++ [⟨encBid, encScore, sender⟩]) }

/-- The linear scan of lines 162-169 / 203-211 / 229-237: running highest
bid, replaced whenever `current.ge(highest)` holds, so a later equal bid
displaces an earlier one. -/
def scanHighest (first : Bid) (rest : List Bid) : Bid :=
  rest.foldl
    (fun highest current =>
      if ctGe current.encryptedBidAmount highest.encryptedBidAmount then current
      else highest)
    first

/-- The winner selection shared by `requestAuctionResultDecryption` and
`myCallback` (the identical scan appears three times in the source): the
`numBids == 1` branch reads index 0 directly, the other branch starts the
scan from index 0 — either branch panics (0x32) on an empty bid array. -/
def selectWinningBid (bids : List Bid) : Except Err Bid :=
  if bids.length == 1 then
    match bids with
    | b :: _ => .ok b
    | [] => .error .PanicOutOfBounds
  else
    match bids with
    | [] => .error .PanicOutOfBounds
    | b :: rest => .ok (scanHighest b rest)

/-- `requestAuctionResultDecryption(batchId)`: modifiers `whenNotPaused`,
`decryptionRateLimited` (timestamp written before the body), `onlyProvider`,
in that order; then the closed/non-empty check, winner selection, the
one-element ciphertext list, its hash, and the stored context keyed by the
oracle-assigned request id.  Returns the new state together with the
ciphertext-handle list submitted to `FHE.requestDecryption`. -/
def requestAuctionResultDecryption (s : ContractState)
    (sender ts batchId oracleRequestId : Nat) :
    Except Err (ContractState × List Nat) :=
  if s.paused then .error .Paused
  else if ts < s.lastDecryptionRequestTime sender + s.cooldownSeconds then
    .error .CooldownActive
  else
    let s1 := { s with
      lastDecryptionRequestTime := upd s.lastDecryptionRequestTime sender ts }
    if ! s1.providers sender then .error .NotProvider
    else if ! s1.batchClosed batchId || (s1.batchBids batchId).length == 0 then
      .error .InvalidBatch
    else
      match selectWinningBid (s1.batchBids batchId) with
      | .error e => .error e
      | .ok w =>
        let cts : List Nat := [w.encryptedBidAmount.handle]
        let stateHash := hashCiphertexts cts s1.self
        .ok ({ s1 with
          decryptionContexts := upd s1.decryptionContexts oracleRequestId
            ⟨batchId, stateHash, false⟩ }, cts)

/-- `myCallback(requestId, cleartexts, proof)`: replay check, winner
re-selection for the recomputed hash, state-consistency check, signature
check (its external verdict is the parameter `sigOk`), winner re-selection
for the event, then `processed := true`.  `cleartextAmount` is the decoded
`uint32`; it only feeds the emitted event. -/
def myCallback (s : ContractState) (requestId cleartextAmount : Nat)
    (sigOk : Bool) : Except Err ContractState :=
  if (s.decryptionContexts requestId).processed then .error .ReplayDetected
  else
    let batchId := (s.decryptionContexts requestId).batchId
    match selectWinningBid (s.batchBids batchId) with
    | .error e => .error e
    | .ok w =>
      let currentCts : List Nat := [w.encryptedBidAmount.handle]
      let currentHash := hashCiphertexts currentCts s.self
      if currentHash ≠ (s.decryptionContexts requestId).stateHash then
        .error .InvalidState
      else if ! sigOk then .error .InvalidProof
      else
        .ok { s with
          decryptionContexts := upd s.decryptionContexts requestId
            ⟨batchId, (s.decryptionContexts requestId).stateHash, true⟩ }

/-- One external call to the contract, with its environment (sender,
timestamp, oracle request id, signature verdict) as constructor fields. -/
inductive Op where
  | transferOwnership (sender newOwner : Nat)
  | addProvider (sender provider : Nat)
  | removeProvider (sender provider : Nat)
  | setPaused (sender : Nat) (p : Bool)
  | setCooldownSeconds (sender n : Nat)
  | openBatch (sender batchId : Nat)
  | closeBatch (sender batchId : Nat)
  | submitBid (sender ts batchId : Nat) (encBid encScore : Ct)
  | requestDecryption (sender ts batchId oracleRequestId : Nat)
  | callback (requestId cleartextAmount : Nat) (sigOk : Bool)
deriving DecidableEq

/-- Dispatch of an operation to the contract function it names. -/
def exec (s : ContractState) : Op → Except Err ContractState
  | .transferOwnership sender newOwner => transferOwnership s sender newOwner
  | .addProvider sender provider => addProvider s sender provider
  | .removeProvider sender provider => removeProvider s sender provider
  | .setPaused sender p => setPaused s sender p
  | .setCooldownSeconds sender n => setCooldownSeconds s sender n
  | .openBatch sender batchId => openBatch s sender batchId
  | .closeBatch sender batchId => closeBatch s sender batchId
  | .submitBid sender ts batchId encBid encScore =>
      submitBid s sender ts batchId encBid encScore
  | .requestDecryption sender ts batchId oracleRequestId =>
      match requestAuctionResultDecryption s sender ts batchId oracleRequestId with
      | .ok (s1, _) => .ok s1
      | .error e => .error e
  | .callback requestId cleartextAmount sigOk =>
      myCallback s requestId cleartextAmount sigOk

/-- EVM call semantics: a reverted call rolls back every storage write, so
the chain state after a failed call is the pre-state. -/
def step (s : ContractState) (op : Op) : ContractState × Option Err :=
  match exec s op with
  | .ok s1 => (s1, none)
  | .error e => (s, some e)

/-- Iterate `step` over a sequence of external calls. -/
def run (s : ContractState) (ops : List Op) : ContractState :=
  ops.foldl (fun t op => (step t op).1) s

/-- An operation that is not a decryption request carrying the given
oracle-assigned request id (the oracle issues fresh ids, so a live id is
never re-issued). -/
def avoidsRequestId (r : Nat) : Op → Bool
  | .requestDecryption _ _ _ oid => oid != r
  | _ => true

/-- A typical fresh deployment state: owner 1 (also a provider, as the
constructor arranges), cooldown 10, nothing else touched. -/
def stA : ContractState :=
  { self := 900, owner := 1, providers := upd (fun _ => false) 1 true,
    paused := false, cooldownSeconds := 10,
    lastSubmissionTime := fun _ => 0, lastDecryptionRequestTime := fun _ => 0,
    batchBids := fun _ => [], batchActive := fun _ => false,
    batchClosed := fun _ => false, decryptionContexts := fun _ => defaultContext }

/-- The [10, 30, 20, 30] example batch, bids tagged with distinct handles
and bidders so positions are distinguishable. -/
def c1Bids : List Bid :=
  [⟨⟨11, 10⟩, ⟨1, 0⟩, 101⟩, ⟨⟨12, 30⟩, ⟨2, 0⟩, 102⟩,
   ⟨⟨13, 20⟩, ⟨3, 0⟩, 103⟩, ⟨⟨14, 30⟩, ⟨4, 0⟩, 104⟩]

/-- The bid at index 3 of `c1Bids` (the last bid of amount 30). -/
def c1Winner : Bid := ⟨⟨14, 30⟩, ⟨4, 0⟩, 104⟩

/-- A state whose stored context for request id 5 is already processed. -/
def stRep : ContractState :=
  { stA with decryptionContexts := upd stA.decryptionContexts 5 ⟨0, B32.zero, true⟩ }

/-- A state whose stored context for request id 9 commits to a ciphertext
handle (99) different from the one the batch's winner re-selection
produces (1). -/
def stC6 : ContractState :=
  { stA with
    decryptionContexts :=
      upd stA.decryptionContexts 9 ⟨5, B32.keccak [99] 900, false⟩,
    batchBids := upd stA.batchBids 5 [⟨⟨1, 42⟩, ⟨2, 0⟩, 7⟩] }

/-- A state with batch 5 closed and holding one bid (handle 1). -/
def stB : ContractState :=
  { stA with
    batchClosed := upd stA.batchClosed 5 true,
    batchBids := upd stA.batchBids 5 [⟨⟨1, 42⟩, ⟨2, 7⟩, 33⟩] }

/-- The state and ciphertext list a successful request on `stB`
produces. -/
def c8Result : ContractState × List Nat :=
  ({ stB with
      lastDecryptionRequestTime := upd stB.lastDecryptionRequestTime 1 50,
      decryptionContexts := upd stB.decryptionContexts 88
        ⟨5, hashCiphertexts [1] stB.self, false⟩ }, [1])

/-- A state on which `myCallback` succeeds for request id 9: batch 5 holds
one bid with handle 1 and the stored context commits to exactly that
handle. -/
def stOK : ContractState :=
  { stA with
    batchBids := upd stA.batchBids 5 [⟨⟨1, 42⟩, ⟨2, 0⟩, 7⟩],
    decryptionContexts :=
      upd stA.decryptionContexts 9 ⟨5, hashCiphertexts [1] 900, false⟩ }

/-- The state the successful callback on `stOK` produces. -/
def stOKAfter : ContractState :=
  { stOK with
    decryptionContexts :=
      upd stOK.decryptionContexts 9 ⟨5, hashCiphertexts [1] 900, true⟩ }

theorem upd_same {α : Type} (f : Nat → α) (k : Nat) (v : α) : upd f k v k = v := by
  simp [upd]

theorem upd_other {α : Type} (f : Nat → α) (k : Nat) (v : α) (x : Nat) (h : x ≠ k) :
    upd f k v x = f x := by
  simp [upd, h]

theorem scanHighest_cons (first c : Bid) (rest : List Bid) :
    scanHighest first (c :: rest) =
      scanHighest
        (if ctGe c.encryptedBidAmount first.encryptedBidAmount then c else first)
        rest := rfl
/-- The running-highest scan returns the last element attaining the maximum:
it is an element of the list, it dominates every element, and every element
strictly after it is strictly smaller. -/
theorem scanHighest_last_max (rest : List Bid) : ∀ first : Bid,
    ∃ pre post,
      first :: rest = pre ++ scanHighest first rest :: post ∧
      (∀ x ∈ first :: rest,
        x.encryptedBidAmount.value ≤ (scanHighest first rest).encryptedBidAmount.value) ∧
      (∀ x ∈ post,
        x.encryptedBidAmount.value < (scanHighest first rest).encryptedBidAmount.value) := by
  induction rest with
  | nil =>
      intro first
      exact ⟨[], [], rfl, by simp [scanHighest], by simp⟩
  | cons c rest ih =>
      intro first
      by_cases hge : ctGe c.encryptedBidAmount first.encryptedBidAmount
      · have hstep : scanHighest first (c :: rest) = scanHighest c rest := by
          rw [scanHighest_cons, if_pos hge]
        have hfc : first.encryptedBidAmount.value ≤ c.encryptedBidAmount.value := by
          simpa [ctGe] using hge
        obtain ⟨pre, post, hsplit, hbound, hstrict⟩ := ih c
        refine ⟨first :: pre, post, ?_, ?_, ?_⟩
        · rw [hstep, List.cons_append, ← hsplit]
        · intro x hx
          rw [hstep]
          rcases List.mem_cons.mp hx with hx1 | hx2
          · subst hx1
            exact le_trans hfc (hbound c (List.mem_cons_self c rest))
          · exact hbound x hx2
        · intro x hx
          rw [hstep]
          exact hstrict x hx
      · have hstep : scanHighest first (c :: rest) = scanHighest first rest := by
          rw [scanHighest_cons, if_neg hge]
        have hcf : c.encryptedBidAmount.value < first.encryptedBidAmount.value := by
          have hle : ¬ first.encryptedBidAmount.value ≤ c.encryptedBidAmount.value := by
            simpa [ctGe] using hge
          omega
        obtain ⟨pre, post, hsplit, hbound, hstrict⟩ := ih first
        cases pre with
        | nil =>
            simp only [List.nil_append] at hsplit
            injection hsplit with hw hpost
            refine ⟨[], c :: rest, ?_, ?_, ?_⟩
            · simp only [List.nil_append]
              rw [hstep, ← hw]
            · intro x hx
              rw [hstep, ← hw]
              rcases List.mem_cons.mp hx with hx1 | hx2
              · subst hx1; exact le_refl _
              · rcases List.mem_cons.mp hx2 with hx3 | hx4
                · subst hx3; exact le_of_lt hcf
                · have hb := hbound x (List.mem_cons_of_mem first hx4)
                  rw [← hw] at hb
                  exact hb
            · intro x hx
              rw [hstep, ← hw]
              rcases List.mem_cons.mp hx with hx1 | hx2
              · subst hx1; exact hcf
              · have hs := hstrict x (hpost ▸ hx2)
                rw [← hw] at hs
                exact hs
        | cons p pre =>
            simp only [List.cons_append] at hsplit
            injection hsplit with hp hrest
            refine ⟨first :: c :: pre, post, ?_, ?_, ?_⟩
            · rw [hstep]
              simp only [List.cons_append]
              rw [← hrest]
            · intro x hx
              rw [hstep]
              rcases List.mem_cons.mp hx with hx1 | hx2
              · rw [hx1]
                exact hbound first (List.mem_cons_self first rest)
              · rcases List.mem_cons.mp hx2 with hx3 | hx4
                · rw [hx3]
                  exact le_trans (le_of_lt hcf)
                    (hbound first (List.mem_cons_self first rest))
                · exact hbound x (List.mem_cons_of_mem first hx4)
            · intro x hx
              rw [hstep]
              exact hstrict x hx

theorem selectWinningBid_error (bids : List Bid) (e : Err)
    (h : selectWinningBid bids = .error e) : e = .PanicOutOfBounds := by
  cases bids with
  | nil =>
      simp [selectWinningBid] at h
      exact h.symm
  | cons b rest =>
      unfold selectWinningBid at h
      split at h <;> simp at h

theorem transferOwnership_ok_shape (s : ContractState) (sender newOwner : Nat)
    (s' : ContractState) (h : transferOwnership s sender newOwner = .ok s') :
    sender = s.owner ∧ s' = { s with owner := newOwner } := by
  unfold transferOwnership at h
  split at h
  · simp at h
  case isFalse hc =>
    simp only [Except.ok.injEq] at h
    exact ⟨by simpa using hc, h.symm⟩

theorem addProvider_ok_shape (s : ContractState) (sender provider : Nat)
    (s' : ContractState) (h : addProvider s sender provider = .ok s') :
    sender = s.owner ∧ s' = { s with providers := upd s.providers provider true } := by
  unfold addProvider at h
  split at h
  · simp at h
  case isFalse hc =>
    simp only [Except.ok.injEq] at h
    exact ⟨by simpa using hc, h.symm⟩

theorem removeProvider_ok_shape (s : ContractState) (sender provider : Nat)
    (s' : ContractState) (h : removeProvider s sender provider = .ok s') :
    sender = s.owner ∧ s' = { s with providers := upd s.providers provider false } := by
  unfold removeProvider at h
  split at h
  · simp at h
  case isFalse hc =>
    simp only [Except.ok.injEq] at h
    exact ⟨by simpa using hc, h.symm⟩

theorem setPaused_ok_shape (s : ContractState) (sender : Nat) (p : Bool)
    (s' : ContractState) (h : setPaused s sender p = .ok s') :
    sender = s.owner ∧ s' = { s with paused := p } := by
  unfold setPaused at h
  split at h
  · simp at h
  case isFalse hc =>
    simp only [Except.ok.injEq] at h
    exact ⟨by simpa using hc, h.symm⟩

theorem setCooldownSeconds_ok_shape (s : ContractState) (sender n : Nat)
    (s' : ContractState) (h : setCooldownSeconds s sender n = .ok s') :
    sender = s.owner ∧ s' = { s with cooldownSeconds := n } := by
  unfold setCooldownSeconds at h
  split at h
  · simp at h
  case isFalse hc =>
    simp only [Except.ok.injEq] at h
    exact ⟨by simpa using hc, h.symm⟩

theorem openBatch_ok_shape (s : ContractState) (sender batchId : Nat)
    (s' : ContractState) (h : openBatch s sender batchId = .ok s') :
    s.providers sender = true ∧ s.paused = false ∧
    s.batchActive batchId = false ∧ s.batchClosed batchId = false ∧
    s' = { s with batchActive := upd s.batchActive batchId true } := by
  unfold openBatch at h
  split at h
  · simp at h
  case isFalse hprov =>
    split at h
    · simp at h
    case isFalse hpause =>
      split at h
      · simp at h
      case isFalse hflags =>
        simp only [Bool.or_eq_true, not_or, Bool.not_eq_true] at hflags
        simp only [Except.ok.injEq] at h
        exact ⟨by simpa using hprov, by simpa using hpause,
          hflags.1, hflags.2, h.symm⟩

theorem closeBatch_ok_shape (s : ContractState) (sender batchId : Nat)
    (s' : ContractState) (h : closeBatch s sender batchId = .ok s') :
    s.providers sender = true ∧ s.paused = false ∧
    s.batchActive batchId = true ∧
    s' = { s with
      batchActive := upd s.batchActive batchId false,
      batchClosed := upd s.batchClosed batchId true } := by
  unfold closeBatch at h
  split at h
  · simp at h
  case isFalse hprov =>
    split at h
    · simp at h
    case isFalse hpause =>
      split at h
      · simp at h
      case isFalse hact =>
        simp only [Except.ok.injEq] at h
        exact ⟨by simpa using hprov, by simpa using hpause,
          by simpa using hact, h.symm⟩

theorem submitBid_ok_shape (s : ContractState) (sender ts batchId : Nat)
    (encBid encScore : Ct) (s' : ContractState)
    (h : submitBid s sender ts batchId encBid encScore = .ok s') :
    s.paused = false ∧
    s.lastSubmissionTime sender + s.cooldownSeconds ≤ ts ∧
    s.batchActive batchId = true ∧
    s' = { s with
      lastSubmissionTime := upd s.lastSubmissionTime sender ts,
      batchBids := upd s.batchBids batchId
        (s.batchBids batchId ++ [⟨encBid, encScore, sender⟩]) } := by
  simp only [submitBid] at h
  split at h
  · simp at h
  case isFalse hpause =>
    split at h
    · simp at h
    case isFalse hcool =>
      split at h
      · simp at h
      case isFalse hact =>
        split at h
        · simp at h
        case isFalse =>
          split at h
          · simp at h
          case isFalse =>
            simp only [Except.ok.injEq] at h
            exact ⟨by simpa using hpause, by omega, by simpa using hact, h.symm⟩

theorem requestDecryption_ok_shape (s : ContractState)
    (sender ts batchId oracleRequestId : Nat) (pr : ContractState × List Nat)
    (h : requestAuctionResultDecryption s sender ts batchId oracleRequestId = .ok pr) :
    s.paused = false ∧
    s.lastDecryptionRequestTime sender + s.cooldownSeconds ≤ ts ∧
    s.providers sender = true ∧
    s.batchClosed batchId = true ∧
    (s.batchBids batchId).length ≠ 0 ∧
    ∃ w, selectWinningBid (s.batchBids batchId) = .ok w ∧
      pr = ({ s with
        lastDecryptionRequestTime := upd s.lastDecryptionRequestTime sender ts,
        decryptionContexts := upd s.decryptionContexts oracleRequestId
          ⟨batchId, hashCiphertexts [w.encryptedBidAmount.handle] s.self, false⟩ },
        [w.encryptedBidAmount.handle]) := by
  simp only [requestAuctionResultDecryption] at h
  split at h
  · simp at h
  case isFalse hpause =>
    split at h
    · simp at h
    case isFalse hcool =>
      split at h
      · simp at h
      case isFalse hprov =>
        split at h
        · simp at h
        case isFalse hbatch =>
          simp at hbatch
          split at h
          · simp at h
          case h_2 w heq =>
            simp only [Except.ok.injEq] at h
            exact ⟨by simpa using hpause, by omega, by simpa using hprov,
              hbatch.1, by simpa using hbatch.2, w, heq, h.symm⟩

theorem myCallback_ok_shape (s : ContractState) (requestId cleartextAmount : Nat)
    (sigOk : Bool) (s' : ContractState)
    (h : myCallback s requestId cleartextAmount sigOk = .ok s') :
    (s.decryptionContexts requestId).processed = false ∧
    sigOk = true ∧
    (∃ w, selectWinningBid (s.batchBids ((s.decryptionContexts requestId).batchId)) = .ok w ∧
      hashCiphertexts [w.encryptedBidAmount.handle] s.self =
        (s.decryptionContexts requestId).stateHash) ∧
    s' = { s with
      decryptionContexts := upd s.decryptionContexts requestId
        ⟨(s.decryptionContexts requestId).batchId,
          (s.decryptionContexts requestId).stateHash, true⟩ } := by
  simp only [myCallback] at h
  split at h
  · simp at h
  case isFalse hproc =>
    split at h
    · simp at h
    case h_2 w heq =>
      split at h
      · simp at h
      case isFalse hhash =>
        split at h
        · simp at h
        case isFalse hsig =>
          simp only [Except.ok.injEq] at h
          refine ⟨by simpa using hproc, by simpa using hsig,
            ⟨w, heq, by simpa using hhash⟩, h.symm⟩

/-- If a stored context is already processed, the callback replays. -/
theorem myCallback_replay (s : ContractState) (requestId cleartextAmount : Nat)
    (sigOk : Bool) (hproc : (s.decryptionContexts requestId).processed = true) :
    myCallback s requestId cleartextAmount sigOk = .error .ReplayDetected := by
  simp [myCallback, hproc]

/-- Claim C1: on every batch with at least two bids, the resolver scan used
by `requestAuctionResultDecryption` and `myCallback` selects the last bid in
submission order whose amount is greater than or equal to every other bid's
amount (every bid after the winner is strictly smaller, every bid at most
equal); in particular, on amounts [10, 30, 20, 30] the bid at index 3 is
selected. -/
theorem c1_resolver_selects_last_max :
    (∀ bids : List Bid, 2 ≤ bids.length →
      ∃ pre w post,
        bids = pre ++ w :: post ∧
        selectWinningBid bids = .ok w ∧
        (∀ x ∈ bids, x.encryptedBidAmount.value ≤ w.encryptedBidAmount.value) ∧
        (∀ x ∈ post, x.encryptedBidAmount.value < w.encryptedBidAmount.value)) ∧
    selectWinningBid c1Bids = .ok c1Winner ∧ c1Bids[3]? = some c1Winner := by
  refine ⟨?_, rfl, rfl⟩
  intro bids h
  obtain ⟨b, rest, rfl⟩ : ∃ b rest, bids = b :: rest := by
    cases bids with
    | nil => simp at h
    | cons b r => exact ⟨b, r, rfl⟩
  have hne : ((b :: rest).length == 1) = false := by
    simp only [List.length_cons, beq_eq_false_iff_ne, ne_eq]
    simp at h
    omega
  have hsel : selectWinningBid (b :: rest) = .ok (scanHighest b rest) := by
    simp [selectWinningBid, hne]
    intro h0
    subst h0
    simp at hne
  obtain ⟨pre, post, hsplit, hbound, hstrict⟩ := scanHighest_last_max rest b
  exact ⟨pre, scanHighest b rest, post, hsplit, hsel, hbound, hstrict⟩

/-- Witness for C1 at the concrete [10, 30, 20, 30] batch. -/
theorem c1_resolver_selects_last_max_witness :
    2 ≤ c1Bids.length ∧
    ∃ pre w post,
      c1Bids = pre ++ w :: post ∧
      selectWinningBid c1Bids = .ok w ∧
      (∀ x ∈ c1Bids, x.encryptedBidAmount.value ≤ w.encryptedBidAmount.value) ∧
      (∀ x ∈ post, x.encryptedBidAmount.value < w.encryptedBidAmount.value) :=
  ⟨by decide, c1_resolver_selects_last_max.1 c1Bids (by decide)⟩

/-- Claim C4: every operation of the contract that fails with an error
leaves the entire observable state unchanged — the EVM rolls back all
storage writes of a reverted call, which `step` encodes. -/
theorem c4_failed_call_leaves_state_unchanged :
    ∀ (s : ContractState) (op : Op),
      (step s op).2.isSome = true → (step s op).1 = s := by
  intro s op h
  unfold step at h ⊢
  cases hex : exec s op <;> simp [hex] at h ⊢

/-- Witness for C4: a non-owner `transferOwnership` fails and changes
nothing. -/
theorem c4_failed_call_leaves_state_unchanged_witness :
    (step stA (Op.transferOwnership 2 3)).2.isSome = true ∧
    (step stA (Op.transferOwnership 2 3)).1 = stA :=
  ⟨rfl, c4_failed_call_leaves_state_unchanged stA (Op.transferOwnership 2 3) rfl⟩

/-- Claim C10: a callback for a request id with no stored context (the
mapping default, whose batchId is 0) on an empty batch 0 aborts with the
array out-of-bounds panic — not with any of the contract's named errors. -/
theorem c10_unknown_request_panics :
    ∀ (s : ContractState) (r amt : Nat) (sig : Bool),
      s.decryptionContexts r = defaultContext →
      s.batchBids 0 = [] →
      myCallback s r amt sig = .error .PanicOutOfBounds ∧
      isNamedError .PanicOutOfBounds = false := by
  intro s r amt sig hctx hbids
  refine ⟨?_, rfl⟩
  simp [myCallback, hctx, defaultContext, hbids, selectWinningBid]

/-- Witness for C10 on a fresh state. -/
theorem c10_unknown_request_panics_witness :
    stA.decryptionContexts 77 = defaultContext ∧ stA.batchBids 0 = [] ∧
    (myCallback stA 77 5 true = .error .PanicOutOfBounds ∧
      isNamedError .PanicOutOfBounds = false) :=
  ⟨rfl, rfl, c10_unknown_request_panics stA 77 5 true rfl rfl⟩

theorem myCallback_error_cases (s : ContractState) (r amt : Nat) (sig : Bool)
    (e : Err) (h : myCallback s r amt sig = .error e) :
    e = .ReplayDetected ∨ e = .InvalidState ∨ e = .InvalidProof ∨
      e = .PanicOutOfBounds := by
  simp only [myCallback] at h
  split at h
  · simp only [Except.error.injEq] at h
    exact Or.inl h.symm
  · split at h
    case h_1 e' heq =>
      simp only [Except.error.injEq] at h
      subst h
      exact Or.inr (Or.inr (Or.inr (selectWinningBid_error _ _ heq)))
    case h_2 w heq =>
      split at h
      · simp only [Except.error.injEq] at h
        exact Or.inr (Or.inl h.symm)
      · split at h
        · simp only [Except.error.injEq] at h
          exact Or.inr (Or.inr (Or.inl h.symm))
        · simp at h

/-- Claim C9: `myCallback` has no pause, role, or rate-limit guard: whether
it fails, and with which error, is independent of the paused flag; it never
fails with Paused, NotOwner, NotProvider, or CooldownActive; and its only
named failure conditions are ReplayDetected, InvalidState, and
InvalidProof. -/
theorem c9_callback_has_no_guards :
    ∀ (s : ContractState) (r amt : Nat) (sig p : Bool),
      (∀ e, myCallback { s with paused := p } r amt sig = .error e ↔
          myCallback s r amt sig = .error e) ∧
      ((∃ s1, myCallback { s with paused := p } r amt sig = .ok s1) ↔
        (∃ s1, myCallback s r amt sig = .ok s1)) ∧
      (∀ e, myCallback s r amt sig = .error e → isNamedError e = true →
        e = .ReplayDetected ∨ e = .InvalidState ∨ e = .InvalidProof) ∧
      myCallback s r amt sig ≠ .error .Paused ∧
      myCallback s r amt sig ≠ .error .NotOwner ∧
      myCallback s r amt sig ≠ .error .NotProvider ∧
      myCallback s r amt sig ≠ .error .CooldownActive := by
  intro s r amt sig p
  have hbranch :
      (∀ e, myCallback { s with paused := p } r amt sig = .error e ↔
          myCallback s r amt sig = .error e) ∧
      ((∃ s1, myCallback { s with paused := p } r amt sig = .ok s1) ↔
        (∃ s1, myCallback s r amt sig = .ok s1)) := by
    by_cases h1 : (s.decryptionContexts r).processed
    · constructor
      · intro e
        simp [myCallback, h1]
      · simp [myCallback, h1]
    · cases hsel : selectWinningBid (s.batchBids ((s.decryptionContexts r).batchId)) with
      | error e' =>
          constructor
          · intro e
            simp [myCallback, h1, hsel]
          · simp [myCallback, h1, hsel]
      | ok w =>
          by_cases h2 : hashCiphertexts [w.encryptedBidAmount.handle] s.self =
              (s.decryptionContexts r).stateHash
          · cases sig with
            | false =>
                constructor
                · intro e
                  simp [myCallback, h1, hsel, h2]
                · simp [myCallback, h1, hsel, h2]
            | true =>
                constructor
                · intro e
                  simp [myCallback, h1, hsel, h2]
                · simp [myCallback, h1, hsel, h2]
          · constructor
            · intro e
              simp [myCallback, h1, hsel, h2]
            · simp [myCallback, h1, hsel, h2]
  refine ⟨hbranch.1, hbranch.2, ?_, ?_, ?_, ?_, ?_⟩
  · intro e he hn
    rcases myCallback_error_cases s r amt sig e he with h | h | h | h
    · exact Or.inl h
    · exact Or.inr (Or.inl h)
    · exact Or.inr (Or.inr h)
    · rw [h] at hn
      simp [isNamedError] at hn
  · intro hc
    rcases myCallback_error_cases s r amt sig _ hc with h | h | h | h <;> simp at h
  · intro hc
    rcases myCallback_error_cases s r amt sig _ hc with h | h | h | h <;> simp at h
  · intro hc
    rcases myCallback_error_cases s r amt sig _ hc with h | h | h | h <;> simp at h
  · intro hc
    rcases myCallback_error_cases s r amt sig _ hc with h | h | h | h <;> simp at h

/-- Witness for C9: applying the named-failure conjunct at a replayed
callback. -/
theorem c9_callback_has_no_guards_witness :
    myCallback stRep 5 0 true = .error .ReplayDetected ∧
    (Err.ReplayDetected = .ReplayDetected ∨ Err.ReplayDetected = .InvalidState ∨
      Err.ReplayDetected = .InvalidProof) :=
  ⟨rfl, (c9_callback_has_no_guards stRep 5 0 true false).2.2.1 .ReplayDetected rfl rfl⟩

/-- Claim C6: for an unprocessed context, when the hash recomputed over the
freshly re-selected winning ciphertext (bound to the contract's own
address) differs from the stored stateHash, the callback fails with
InvalidState and the context stays unprocessed. -/
theorem c6_state_hash_mismatch_rejected :
    ∀ (s : ContractState) (r amt : Nat) (sig : Bool) (w : Bid),
      (s.decryptionContexts r).processed = false →
      selectWinningBid (s.batchBids ((s.decryptionContexts r).batchId)) = .ok w →
      hashCiphertexts [w.encryptedBidAmount.handle] s.self ≠
        (s.decryptionContexts r).stateHash →
      myCallback s r amt sig = .error .InvalidState ∧
      ((step s (Op.callback r amt sig)).1.decryptionContexts r).processed = false := by
  intro s r amt sig w hproc hsel hne
  have hcb : myCallback s r amt sig = .error .InvalidState := by
    simp [myCallback, hproc, hsel, hne]
  refine ⟨hcb, ?_⟩
  have hex : exec s (Op.callback r amt sig) = .error .InvalidState := hcb
  simp [step, hex, hproc]

/-- Witness for C6 at the drifted-hash state. -/
theorem c6_state_hash_mismatch_rejected_witness :
    myCallback stC6 9 0 true = .error .InvalidState ∧
    ((step stC6 (Op.callback 9 0 true)).1.decryptionContexts 9).processed = false :=
  c6_state_hash_mismatch_rejected stC6 9 0 true ⟨⟨1, 42⟩, ⟨2, 0⟩, 7⟩ rfl rfl
    (by decide)

/-- Counterexample to claim C3 as stated: on a fresh state, a `submitBid`
that passes the pause and cooldown checks but hits an inactive batch fails
with InvalidBatch and leaves `lastSubmissionTime` at its old value 0 — not
at the call's timestamp 100.  The revert rolls the modifier's write back,
so the failed call does not consume the cooldown window. -/
theorem c3_counterexample :
    stA.paused = false ∧
    stA.lastSubmissionTime 7 + stA.cooldownSeconds ≤ 100 ∧
    (step stA (Op.submitBid 7 100 5 ⟨1, 10⟩ ⟨2, 0⟩)).2 = some .InvalidBatch ∧
    (step stA (Op.submitBid 7 100 5 ⟨1, 10⟩ ⟨2, 0⟩)).1.lastSubmissionTime 7 = 0 ∧
    (step stA (Op.submitBid 7 100 5 ⟨1, 10⟩ ⟨2, 0⟩)).1.lastSubmissionTime 7 ≠ 100 :=
  ⟨rfl, by decide, rfl, rfl, by decide⟩

/-- Claim C3 amended: a failed `submitBid` leaves the caller's
`lastSubmissionTime` unchanged (the EVM revert rolls back the rate-limit
modifier's write, even though the source writes it before the batch-active
check), and the timestamp becomes the call's timestamp exactly on
success. -/
theorem c3_amended_failed_submit_keeps_cooldown :
    ∀ (s : ContractState) (sender ts batchId : Nat) (encBid encScore : Ct),
      ((step s (Op.submitBid sender ts batchId encBid encScore)).2.isSome = true →
        (step s (Op.submitBid sender ts batchId encBid encScore)).1.lastSubmissionTime
          sender = s.lastSubmissionTime sender) ∧
      (∀ s', submitBid s sender ts batchId encBid encScore = .ok s' →
        s'.lastSubmissionTime sender = ts) := by
  intro s sender ts batchId encBid encScore
  constructor
  · intro h
    unfold step at h ⊢
    cases hex : exec s (Op.submitBid sender ts batchId encBid encScore) <;>
      simp [hex] at h ⊢
  · intro s' hok
    have hsh := submitBid_ok_shape s sender ts batchId encBid encScore s' hok
    rw [hsh.2.2.2]
    simp [upd]

/-- Witness for the amended C3 at the concrete failing call. -/
theorem c3_amended_failed_submit_keeps_cooldown_witness :
    (step stA (Op.submitBid 7 100 5 ⟨1, 10⟩ ⟨2, 0⟩)).2.isSome = true ∧
    (step stA (Op.submitBid 7 100 5 ⟨1, 10⟩ ⟨2, 0⟩)).1.lastSubmissionTime 7
      = stA.lastSubmissionTime 7 :=
  ⟨rfl, (c3_amended_failed_submit_keeps_cooldown stA 7 100 5 ⟨1, 10⟩ ⟨2, 0⟩).1 rfl⟩

/-- Claim C7: each limiter rejects with CooldownActive strictly before
`lastTimestamp + cooldownSeconds`, passes the rate-limit check at exactly
that instant or later (the call can then only fail for other reasons), and
the two limiters read and write separate timestamps, so using one never
moves the other. -/
theorem c7_rate_limiter_boundary :
    ∀ (s : ContractState) (sender ts batchId oid : Nat) (encBid encScore : Ct),
      (s.paused = false →
        ts < s.lastSubmissionTime sender + s.cooldownSeconds →
        submitBid s sender ts batchId encBid encScore = .error .CooldownActive) ∧
      (s.lastSubmissionTime sender + s.cooldownSeconds ≤ ts →
        submitBid s sender ts batchId encBid encScore ≠ .error .CooldownActive) ∧
      (s.paused = false →
        ts < s.lastDecryptionRequestTime sender + s.cooldownSeconds →
        requestAuctionResultDecryption s sender ts batchId oid
          = .error .CooldownActive) ∧
      (s.lastDecryptionRequestTime sender + s.cooldownSeconds ≤ ts →
        requestAuctionResultDecryption s sender ts batchId oid
          ≠ .error .CooldownActive) ∧
      (step s (Op.submitBid sender ts batchId encBid encScore)).1.lastDecryptionRequestTime
        = s.lastDecryptionRequestTime ∧
      (step s (Op.requestDecryption sender ts batchId oid)).1.lastSubmissionTime
        = s.lastSubmissionTime := by
  intro s sender ts batchId oid encBid encScore
  refine ⟨?_, ?_, ?_, ?_, ?_, ?_⟩
  · intro hp hc
    simp [submitBid, hp, hc]
  · intro hle heq
    simp only [submitBid] at heq
    split at heq
    · simp at heq
    · split at heq
      case isTrue hc => omega
      · split at heq
        · simp at heq
        · split at heq
          · simp at heq
          · split at heq
            · simp at heq
            · simp at heq
  · intro hp hc
    simp [requestAuctionResultDecryption, hp, hc]
  · intro hle heq
    simp only [requestAuctionResultDecryption] at heq
    split at heq
    · simp at heq
    · split at heq
      case isTrue hc => omega
      · split at heq
        · simp at heq
        · split at heq
          · simp at heq
          · split at heq
            case h_1 e' hsel =>
              simp only [Except.error.injEq] at heq
              subst heq
              exact absurd (selectWinningBid_error _ _ hsel) (by simp)
            case h_2 w hsel => simp at heq
  · cases hex : exec s (Op.submitBid sender ts batchId encBid encScore) with
    | error e => simp [step, hex]
    | ok s1 =>
        have hsh := submitBid_ok_shape s sender ts batchId encBid encScore s1 hex
        simp [step, hex, hsh.2.2.2]
  · cases hex : exec s (Op.requestDecryption sender ts batchId oid) with
    | error e => simp [step, hex]
    | ok s1 =>
        have hinv : ∃ cts,
            requestAuctionResultDecryption s sender ts batchId oid = .ok (s1, cts) := by
          simp only [exec] at hex
          cases hreq : requestAuctionResultDecryption s sender ts batchId oid with
          | error e => rw [hreq] at hex; simp at hex
          | ok pr =>
              rw [hreq] at hex
              cases pr with
              | mk a b =>
                  simp only [Except.ok.injEq] at hex
                  exact ⟨b, by rw [hex]⟩
        obtain ⟨cts, hreq⟩ := hinv
        obtain ⟨-, -, -, -, -, w, hsel, hpr⟩ :=
          requestDecryption_ok_shape s sender ts batchId oid (s1, cts) hreq
        simp only [Prod.mk.injEq] at hpr
        simp only [step, hex]
        rw [hpr.1]

/-- Witness for C7: on a fresh state a second submission at time 5 (within
the 10-second cooldown) is rejected. -/
theorem c7_rate_limiter_boundary_witness :
    stA.paused = false ∧
    (5 : Nat) < stA.lastSubmissionTime 7 + stA.cooldownSeconds ∧
    submitBid stA 7 5 3 ⟨1, 10⟩ ⟨2, 0⟩ = .error .CooldownActive :=
  ⟨rfl, by decide,
    (c7_rate_limiter_boundary stA 7 5 3 0 ⟨1, 10⟩ ⟨2, 0⟩).1 rfl (by decide)⟩

/-- Claim C8: under the access and cooldown preconditions,
`requestAuctionResultDecryption` fails with InvalidBatch unless the batch
is closed and non-empty; on success, the ciphertext list it hashes and
hands to the oracle is exactly the one-element list holding the winning
bid's encrypted amount, and the stored context commits to that same
list. -/
theorem c8_request_submits_single_winning_ct :
    ∀ (s : ContractState) (sender ts batchId oid : Nat),
      (s.paused = false →
        s.lastDecryptionRequestTime sender + s.cooldownSeconds ≤ ts →
        s.providers sender = true →
        (s.batchClosed batchId = false ∨ s.batchBids batchId = []) →
        requestAuctionResultDecryption s sender ts batchId oid
          = .error .InvalidBatch) ∧
      (∀ pr, requestAuctionResultDecryption s sender ts batchId oid = .ok pr →
        ∃ w, selectWinningBid (s.batchBids batchId) = .ok w ∧
          pr.2 = [w.encryptedBidAmount.handle] ∧
          pr.1.decryptionContexts oid =
            ⟨batchId, hashCiphertexts [w.encryptedBidAmount.handle] s.self,
              false⟩) := by
  intro s sender ts batchId oid
  constructor
  · intro hp hcool hprov hbatch
    have hnc : ¬ ts < s.lastDecryptionRequestTime sender + s.cooldownSeconds := by
      omega
    have hcond : (! s.batchClosed batchId
        || (s.batchBids batchId).length == 0) = true := by
      rcases hbatch with h | h <;> simp [h]
    simp [requestAuctionResultDecryption, hp, hnc, hprov, hcond]
  · intro pr hok
    obtain ⟨-, -, -, -, -, w, hsel, hpr⟩ :=
      requestDecryption_ok_shape s sender ts batchId oid pr hok
    refine ⟨w, hsel, ?_, ?_⟩
    · rw [hpr]
    · rw [hpr]
      simp [upd, hashCiphertexts]

/-- Witness for C8: the provider's request on the closed one-bid batch
succeeds and submits exactly the winner's amount handle. -/
theorem c8_request_submits_single_winning_ct_witness :
    requestAuctionResultDecryption stB 1 50 5 88 = .ok c8Result ∧
    ∃ w, selectWinningBid (stB.batchBids 5) = .ok w ∧
      c8Result.2 = [w.encryptedBidAmount.handle] ∧
      c8Result.1.decryptionContexts 88 =
        ⟨5, hashCiphertexts [w.encryptedBidAmount.handle] stB.self, false⟩ :=
  ⟨rfl, (c8_request_submits_single_winning_ct stB 1 50 5 88).2 c8Result rfl⟩

/-- Inversion of a successful decryption request through `exec`: the new
state updates only the caller's decryption timestamp and the context slot
of the oracle-assigned request id. -/
theorem execRequest_ok_state (s : ContractState) (sender ts batchId oid : Nat)
    (s1 : ContractState)
    (hex : exec s (Op.requestDecryption sender ts batchId oid) = .ok s1) :
    ∃ w : Bid, s1 = { s with
      lastDecryptionRequestTime := upd s.lastDecryptionRequestTime sender ts,
      decryptionContexts := upd s.decryptionContexts oid
        ⟨batchId, hashCiphertexts [w.encryptedBidAmount.handle] s.self, false⟩ } := by
  simp only [exec] at hex
  cases hreq : requestAuctionResultDecryption s sender ts batchId oid with
  | error e => rw [hreq] at hex; simp at hex
  | ok pr =>
      rw [hreq] at hex
      cases pr with
      | mk a bl =>
          simp only [Except.ok.injEq] at hex
          obtain ⟨-, -, -, -, -, w, hsel, hpr⟩ :=
            requestDecryption_ok_shape s sender ts batchId oid (a, bl) hreq
          simp only [Prod.mk.injEq] at hpr
          exact ⟨w, by rw [← hex, hpr.1]⟩

/-- Per-batch effect of any operation on the two lifecycle flags: either
both are untouched, or a successful `openBatch` on that very batch turns
(false, false) into (true, unchanged-false), or a successful `closeBatch`
on it turns active off and closed on. -/
theorem step_flags (s : ContractState) (op : Op) (b : Nat) :
    ((step s op).1.batchActive b = s.batchActive b ∧
     (step s op).1.batchClosed b = s.batchClosed b) ∨
    (∃ sender, op = Op.openBatch sender b ∧
      s.batchActive b = false ∧ s.batchClosed b = false ∧
      (step s op).1.batchActive b = true ∧
      (step s op).1.batchClosed b = s.batchClosed b) ∨
    (∃ sender, op = Op.closeBatch sender b ∧
      s.batchActive b = true ∧
      (step s op).1.batchActive b = false ∧
      (step s op).1.batchClosed b = true) := by
  cases op with
  | transferOwnership a nw =>
      cases hex : exec s (Op.transferOwnership a nw) with
      | error e => left; simp [step, hex]
      | ok s1 =>
          left
          have hsh := transferOwnership_ok_shape s a nw s1 hex
          simp [step, hex, hsh.2]
  | addProvider a p =>
      cases hex : exec s (Op.addProvider a p) with
      | error e => left; simp [step, hex]
      | ok s1 =>
          left
          have hsh := addProvider_ok_shape s a p s1 hex
          simp [step, hex, hsh.2]
  | removeProvider a p =>
      cases hex : exec s (Op.removeProvider a p) with
      | error e => left; simp [step, hex]
      | ok s1 =>
          left
          have hsh := removeProvider_ok_shape s a p s1 hex
          simp [step, hex, hsh.2]
  | setPaused a p =>
      cases hex : exec s (Op.setPaused a p) with
      | error e => left; simp [step, hex]
      | ok s1 =>
          left
          have hsh := setPaused_ok_shape s a p s1 hex
          simp [step, hex, hsh.2]
  | setCooldownSeconds a n =>
      cases hex : exec s (Op.setCooldownSeconds a n) with
      | error e => left; simp [step, hex]
      | ok s1 =>
          left
          have hsh := setCooldownSeconds_ok_shape s a n s1 hex
          simp [step, hex, hsh.2]
  | openBatch a b' =>
      cases hex : exec s (Op.openBatch a b') with
      | error e => left; simp [step, hex]
      | ok s1 =>
          have hsh := openBatch_ok_shape s a b' s1 hex
          by_cases hb : b = b'
          · subst hb
            right; left
            exact ⟨a, rfl, hsh.2.2.1, hsh.2.2.2.1,
              by simp [step, hex, hsh.2.2.2.2, upd],
              by simp [step, hex, hsh.2.2.2.2]⟩
          · left
            constructor
            · simp [step, hex, hsh.2.2.2.2, upd_other _ _ _ _ hb]
            · simp [step, hex, hsh.2.2.2.2]
  | closeBatch a b' =>
      cases hex : exec s (Op.closeBatch a b') with
      | error e => left; simp [step, hex]
      | ok s1 =>
          have hsh := closeBatch_ok_shape s a b' s1 hex
          by_cases hb : b = b'
          · subst hb
            right; right
            exact ⟨a, rfl, hsh.2.2.1,
              by simp [step, hex, hsh.2.2.2, upd],
              by simp [step, hex, hsh.2.2.2, upd]⟩
          · left
            constructor
            · simp [step, hex, hsh.2.2.2, upd_other _ _ _ _ hb]
            · simp [step, hex, hsh.2.2.2, upd_other _ _ _ _ hb]
  | submitBid a ts b' eb es =>
      cases hex : exec s (Op.submitBid a ts b' eb es) with
      | error e => left; simp [step, hex]
      | ok s1 =>
          left
          have hsh := submitBid_ok_shape s a ts b' eb es s1 hex
          simp [step, hex, hsh.2.2.2]
  | requestDecryption a ts b' oid =>
      cases hex : exec s (Op.requestDecryption a ts b' oid) with
      | error e => left; simp [step, hex]
      | ok s1 =>
          left
          obtain ⟨w, hs1⟩ := execRequest_ok_state s a ts b' oid s1 hex
          simp [step, hex, hs1]
  | callback rq amt sig =>
      cases hex : exec s (Op.callback rq amt sig) with
      | error e => left; simp [step, hex]
      | ok s1 =>
          left
          have hsh := myCallback_ok_shape s rq amt sig s1 hex
          simp [step, hex, hsh.2.2.2]

/-- Claim C5: no batch is ever both active and closed (the exclusion is
preserved by every operation), the only flag transitions any operation
performs are unopened→active (a successful `openBatch`) and active→closed
(a successful `closeBatch`), and `openBatch` on an already active or
already closed batch fails with InvalidBatch — so a closed batch can never
be reopened and no batch is opened twice. -/
theorem c5_batch_lifecycle :
    ∀ (s : ContractState) (op : Op) (b : Nat),
      ((∀ b', ¬(s.batchActive b' = true ∧ s.batchClosed b' = true)) →
        ∀ b', ¬((step s op).1.batchActive b' = true ∧
                (step s op).1.batchClosed b' = true)) ∧
      (¬(s.batchActive b = true ∧ s.batchClosed b = true) →
        ((step s op).1.batchActive b = s.batchActive b ∧
         (step s op).1.batchClosed b = s.batchClosed b) ∨
        ((∃ sender, op = Op.openBatch sender b) ∧
          s.batchActive b = false ∧ s.batchClosed b = false ∧
          (step s op).1.batchActive b = true ∧
          (step s op).1.batchClosed b = false) ∨
        ((∃ sender, op = Op.closeBatch sender b) ∧
          s.batchActive b = true ∧ s.batchClosed b = false ∧
          (step s op).1.batchActive b = false ∧
          (step s op).1.batchClosed b = true)) ∧
      (∀ sender, s.providers sender = true → s.paused = false →
        s.batchActive b = true ∨ s.batchClosed b = true →
        exec s (Op.openBatch sender b) = .error .InvalidBatch) := by
  intro s op b
  refine ⟨?_, ?_, ?_⟩
  · intro hinv b'
    rcases step_flags s op b' with ⟨h1, h2⟩ | ⟨sender, -, ha, hc, h1, h2⟩ |
      ⟨sender, -, ha, h1, h2⟩
    · rw [h1, h2]; exact hinv b'
    · rw [h1, h2, hc]; simp
    · rw [h1]; simp
  · intro hinv
    rcases step_flags s op b with ⟨h1, h2⟩ | ⟨sender, hop, ha, hc, h1, h2⟩ |
      ⟨sender, hop, ha, h1, h2⟩
    · exact Or.inl ⟨h1, h2⟩
    · exact Or.inr (Or.inl ⟨⟨sender, hop⟩, ha, hc, h1, by rw [h2, hc]⟩)
    · have hc : s.batchClosed b = false := by
        cases hcl : s.batchClosed b with
        | false => rfl
        | true => exact absurd ⟨ha, hcl⟩ hinv
      exact Or.inr (Or.inr ⟨⟨sender, hop⟩, ha, hc, h1, h2⟩)
  · intro sender hprov hp hor
    have hcond : (s.batchActive b || s.batchClosed b) = true := by
      rcases hor with h | h <;> simp [h]
    simp [exec, openBatch, hprov, hp, hcond]

/-- Witness for C5: opening the already closed batch 5 of `stB` fails with
InvalidBatch. -/
theorem c5_batch_lifecycle_witness :
    stB.providers 1 = true ∧ stB.paused = false ∧ stB.batchClosed 5 = true ∧
    exec stB (Op.openBatch 1 5) = .error .InvalidBatch :=
  ⟨rfl, rfl, rfl,
    (c5_batch_lifecycle stB (Op.openBatch 1 5) 5).2.2 1 rfl rfl (Or.inr rfl)⟩

/-- Any single operation that is not a decryption request re-using the
given oracle request id keeps an already-true processed flag true. -/
theorem step_preserves_processed (s : ContractState) (op : Op) (r : Nat)
    (havoid : avoidsRequestId r op = true)
    (hproc : (s.decryptionContexts r).processed = true) :
    (((step s op).1).decryptionContexts r).processed = true := by
  cases op with
  | transferOwnership a nw =>
      cases hex : exec s (Op.transferOwnership a nw) with
      | error e => simpa [step, hex] using hproc
      | ok s1 =>
          have hsh := transferOwnership_ok_shape s a nw s1 hex
          simpa [step, hex, hsh.2] using hproc
  | addProvider a p =>
      cases hex : exec s (Op.addProvider a p) with
      | error e => simpa [step, hex] using hproc
      | ok s1 =>
          have hsh := addProvider_ok_shape s a p s1 hex
          simpa [step, hex, hsh.2] using hproc
  | removeProvider a p =>
      cases hex : exec s (Op.removeProvider a p) with
      | error e => simpa [step, hex] using hproc
      | ok s1 =>
          have hsh := removeProvider_ok_shape s a p s1 hex
          simpa [step, hex, hsh.2] using hproc
  | setPaused a p =>
      cases hex : exec s (Op.setPaused a p) with
      | error e => simpa [step, hex] using hproc
      | ok s1 =>
          have hsh := setPaused_ok_shape s a p s1 hex
          simpa [step, hex, hsh.2] using hproc
  | setCooldownSeconds a n =>
      cases hex : exec s (Op.setCooldownSeconds a n) with
      | error e => simpa [step, hex] using hproc
      | ok s1 =>
          have hsh := setCooldownSeconds_ok_shape s a n s1 hex
          simpa [step, hex, hsh.2] using hproc
  | openBatch a b =>
      cases hex : exec s (Op.openBatch a b) with
      | error e => simpa [step, hex] using hproc
      | ok s1 =>
          have hsh := openBatch_ok_shape s a b s1 hex
          simpa [step, hex, hsh.2.2.2.2] using hproc
  | closeBatch a b =>
      cases hex : exec s (Op.closeBatch a b) with
      | error e => simpa [step, hex] using hproc
      | ok s1 =>
          have hsh := closeBatch_ok_shape s a b s1 hex
          simpa [step, hex, hsh.2.2.2] using hproc
  | submitBid a ts b eb es =>
      cases hex : exec s (Op.submitBid a ts b eb es) with
      | error e => simpa [step, hex] using hproc
      | ok s1 =>
          have hsh := submitBid_ok_shape s a ts b eb es s1 hex
          simpa [step, hex, hsh.2.2.2] using hproc
  | requestDecryption a ts b oid =>
      cases hex : exec s (Op.requestDecryption a ts b oid) with
      | error e => simpa [step, hex] using hproc
      | ok s1 =>
          obtain ⟨w, hs1⟩ := execRequest_ok_state s a ts b oid s1 hex
          have hne : r ≠ oid := by
            simp only [avoidsRequestId, bne_iff_ne, ne_eq] at havoid
            exact fun h => havoid h.symm
          simpa [step, hex, hs1, upd_other _ _ _ _ hne] using hproc
  | callback rq amt sig =>
      cases hex : exec s (Op.callback rq amt sig) with
      | error e => simpa [step, hex] using hproc
      | ok s1 =>
          have hsh := myCallback_ok_shape s rq amt sig s1 hex
          by_cases hrr : r = rq
          · subst hrr
            exact absurd hproc (by simp [hsh.1])
          · simpa [step, hex, hsh.2.2.2, upd_other _ _ _ _ hrr] using hproc

/-- An already-true processed flag stays true along any sequence of calls
in which the oracle never re-issues the same request id. -/
theorem run_preserves_processed (r : Nat) :
    ∀ (ops : List Op), ops.all (avoidsRequestId r) = true →
      ∀ s : ContractState, (s.decryptionContexts r).processed = true →
        ((run s ops).decryptionContexts r).processed = true := by
  intro ops
  induction ops with
  | nil => intro _ s h; simpa [run] using h
  | cons op ops ih =>
      intro hall s h
      simp only [List.all_cons, Bool.and_eq_true] at hall
      exact ih hall.2 ((step s op).1) (step_preserves_processed s op r hall.1 h)

/-- Claim C2: a successful callback sets the stored context's processed
flag to true; thereafter, along any sequence of contract calls (with the
oracle never re-issuing that request id), the flag stays true and every
further callback for that request id fails with ReplayDetected, whatever
cleartexts and proof verdict it carries. -/
theorem c2_processed_monotone_replay_protection :
    ∀ (s : ContractState) (r amt : Nat) (sig : Bool) (s' : ContractState),
      myCallback s r amt sig = .ok s' →
      (s'.decryptionContexts r).processed = true ∧
      (∀ ops : List Op, ops.all (avoidsRequestId r) = true →
        ((run s' ops).decryptionContexts r).processed = true ∧
        (∀ amt2 sig2, myCallback (run s' ops) r amt2 sig2
          = .error .ReplayDetected)) := by
  intro s r amt sig s' hok
  have hp : (s'.decryptionContexts r).processed = true := by
    have hsh := myCallback_ok_shape s r amt sig s' hok
    rw [hsh.2.2.2]
    simp [upd]
  refine ⟨hp, ?_⟩
  intro ops hall
  have hrun := run_preserves_processed r ops hall s' hp
  exact ⟨hrun, fun amt2 sig2 => myCallback_replay _ _ _ _ hrun⟩

/-- Witness for C2: the callback succeeds once, survives an interleaved
`setPaused`, and is replayed-rejected with different payload. -/
theorem c2_processed_monotone_replay_protection_witness :
    myCallback stOK 9 0 true = .ok stOKAfter ∧
    (stOKAfter.decryptionContexts 9).processed = true ∧
    ((run stOKAfter [Op.setPaused 1 true]).decryptionContexts 9).processed
      = true ∧
    myCallback (run stOKAfter [Op.setPaused 1 true]) 9 3 false
      = .error .ReplayDetected := by
  have h := c2_processed_monotone_replay_protection stOK 9 0 true stOKAfter rfl
  have h2 := h.2 [Op.setPaused 1 true] rfl
  exact ⟨rfl, h.1, h2.1, h2.2 3 false⟩
